import Mathlib

/-!
Verification development for the claimchain-core high-level interface
(`claimchain/state.py`).

The `State`, `View`, `Payload`, `Metadata` logic and the commit protocol are
embedded from `src/claimchain/state.py`.  The cryptographic codec
(`claimchain.core`), the key bundles (`claimchain.crypto`) and the
hippiehug tree/chain collaborators are not part of the provided sources;
they are modelled from the specification (sections 4.1, 4.2 and 6) with a
standard symbolic (Dolev-Yao style) treatment of hashing, VRF, DH and AEAD:
hashes and ciphertexts are free constructors over their inputs, and
content-addressed hashes are represented by the content itself.
-/

deriving instance DecidableEq for Except

/-- Byte strings (labels, contents, nonces) are modelled as lists of naturals. -/
abbrev Bytes := List Nat

/-- Modelled from the spec: the VRF output `vrf_eval(vrf_sk, msg)` is a
deterministic pseudorandom value.  Symbolically it is a free constructor on
the key and the message.  Keypairs are modelled with `pk = sk` (a single
natural number names the keypair), which is sound for the functional
properties proved here. -/
structure VrfVal where
  pk : Nat
  msg : Bytes
deriving DecidableEq

/-- Modelled from the spec: deterministic VRF evaluation. -/
def vrf_eval (vrf_sk : Nat) (msg : Bytes) : VrfVal := ⟨vrf_sk, msg⟩

/-- Modelled from the spec: VRF verification against the public key. -/
def vrf_verify (vrf_pk : Nat) (msg : Bytes) (value : VrfVal) : Bool :=
  value = ⟨vrf_pk, msg⟩

/-- Modelled from the spec: Diffie-Hellman shared secret on a fixed curve,
`dh(sk, other_pk)`.  Modelled as the unordered pair of the two key names so
that `dh a b = dh b a` (commutativity of the shared point). -/
def dh (sk other_pk : Nat) : Nat × Nat := (min sk other_pk, max sk other_pk)

/-- Modelled from the spec: the domain-separated key-derivation hashes
`H(tag ‖ input…)` with tags `"lookup"`, `"enc"`, `"cap-lookup"`, `"cap-enc"`.
Each tag is a distinct free constructor, so distinct tags never collide and
the hash is injective on its inputs. -/
inductive HKey where
  | claimLookup (vrf_value : VrfVal)
  | claimEnc (vrf_value : VrfVal)
  | capLookup (shared : Nat × Nat) (nonce : Bytes) (label : Bytes)
  | capEnc (shared : Nat × Nat) (nonce : Bytes) (label : Bytes)
deriving DecidableEq

/-- Modelled from the spec: an AEAD ciphertext `aead_seal(key, nonce, aad, pt)`,
kept symbolic: the ciphertext records its key, nonce, associated data and
plaintext, and opens only under the matching key, nonce and aad. -/
structure AeadCt (α : Type) where
  key : HKey
  nonce : Bytes
  aad : Bytes
  pt : α
deriving DecidableEq

/-- Modelled from the spec: AEAD encryption. -/
def aead_seal (key : HKey) (nonce aad : Bytes) (pt : α) : AeadCt α :=
  ⟨key, nonce, aad, pt⟩

/-- Modelled from the spec: AEAD decryption; returns the plaintext only when
key, nonce and associated data all match, and fails otherwise. -/
def aead_open (key : HKey) (nonce aad : Bytes) (ct : AeadCt α) : Option α :=
  if ct.key = key ∧ ct.nonce = nonce ∧ ct.aad = aad then some ct.pt else none

/-- An encrypted item stored in the block's tree: either an encrypted claim
(content bytes) or an encrypted capability (a VRF value). -/
inductive EncItem where
  | claim (ct : AeadCt Bytes)
  | cap (ct : AeadCt VrfVal)
deriving DecidableEq

/-- Modelled from the spec: modes of `claimchain.core._compute_claim_key`. -/
inductive ClaimKeyMode where
  | lookup
  | enc
deriving DecidableEq

/-- Modelled from the spec: `_compute_claim_key(vrf_value, mode)` derives the
claim's lookup key `H("lookup" ‖ vrf_val)` or encryption key
`H("enc" ‖ vrf_val)`. -/
def compute_claim_key (vrf_value : VrfVal) (mode : ClaimKeyMode) : HKey :=
  match mode with
  | .lookup => HKey.claimLookup vrf_value
  | .enc => HKey.claimEnc vrf_value

/-- Modelled from the spec (4.2.1): `encode_claim(nonce, label, content)`.
Computes `vrf_val = VRF(vrf_sk, nonce ‖ label)`, the lookup key
`H("lookup" ‖ vrf_val)` and the AEAD ciphertext of the content under
`H("enc" ‖ vrf_val)` with the nonce and the label as associated data.
The caller's VRF secret key (taken from process-global default params in the
source) is passed explicitly. -/
def encode_claim (vrf_sk : Nat) (nonce claim_label claim_content : Bytes) :
    VrfVal × HKey × EncItem :=
  let vrf_value := vrf_eval vrf_sk (nonce ++ claim_label)
  (vrf_value, compute_claim_key vrf_value ClaimKeyMode.lookup,
    EncItem.claim (aead_seal (compute_claim_key vrf_value ClaimKeyMode.enc)
      nonce claim_label claim_content))

/-- Modelled from the spec (4.2.2): `decode_claim(vrf_pk, nonce, label,
vrf_value, enc_claim)` verifies the VRF value against the owner's public key
and `nonce ‖ label`, then opens the ciphertext; fails on either error. -/
def decode_claim (vrf_pk : Nat) (nonce claim_label : Bytes) (vrf_value : VrfVal)
    (enc_claim : EncItem) : Option Bytes :=
  if vrf_verify vrf_pk (nonce ++ claim_label) vrf_value then
    match enc_claim with
    | EncItem.claim ct =>
        aead_open (compute_claim_key vrf_value ClaimKeyMode.enc) nonce claim_label ct
    | EncItem.cap _ => none
  else none

/-- Modelled from the spec (4.2.3): `encode_capability(reader_dh_pk, nonce,
label, vrf_value)` run by the owner; the owner's DH secret key is passed
explicitly.  Derives `cap_lookup_key = H("cap-lookup" ‖ shared ‖ nonce ‖ label)`
and seals the VRF value under `H("cap-enc" ‖ shared ‖ nonce ‖ label)`. -/
def encode_capability (owner_dh_sk reader_dh_pk : Nat) (nonce claim_label : Bytes)
    (vrf_value : VrfVal) : HKey × EncItem :=
  let shared := dh owner_dh_sk reader_dh_pk
  (HKey.capLookup shared nonce claim_label,
    EncItem.cap (aead_seal (HKey.capEnc shared nonce claim_label)
      nonce claim_label vrf_value))

/-- Modelled from the spec (4.2.3-4.2.4): `get_capability_lookup_key(other_pk,
nonce, label)`; the caller's DH secret key is passed explicitly. -/
def get_capability_lookup_key (my_dh_sk other_dh_pk : Nat)
    (nonce claim_label : Bytes) : HKey :=
  HKey.capLookup (dh my_dh_sk other_dh_pk) nonce claim_label

/-- Modelled from the spec (4.2.4): `decode_capability(owner_dh_pk, nonce,
label, cap)` run by the reader; the reader's DH secret key is passed
explicitly.  Recovers the VRF value and derives the claim's lookup key. -/
def decode_capability (my_dh_sk owner_dh_pk : Nat) (nonce claim_label : Bytes)
    (cap : EncItem) : Option (VrfVal × HKey) :=
  let shared := dh my_dh_sk owner_dh_pk
  match cap with
  | EncItem.cap ct =>
      match aead_open (HKey.capEnc shared nonce claim_label) nonce claim_label ct with
      | none => none
      | some vrf_value =>
          some (vrf_value, compute_claim_key vrf_value ClaimKeyMode.lookup)
  | EncItem.claim _ => none

/-- Modelled from the spec: the owner's secret key bundle `LocalParams`:
signature, VRF and DH keypairs, each named by a natural (with `pk = sk` in
the symbolic model). -/
structure LocalParams where
  sig : Nat
  vrf : Nat
  dh : Nat
deriving DecidableEq

/-- Modelled from the spec: the public export of `LocalParams` stored in the
block metadata (`LocalParams.public_export`). -/
structure PublicParams where
  sig : Nat
  vrf : Nat
  dh : Nat
deriving DecidableEq

/-- Modelled from the spec: `LocalParams.public_export()`. -/
def LocalParams.public_export (p : LocalParams) : PublicParams :=
  ⟨p.sig, p.vrf, p.dh⟩

/-- Modelled from the spec: a signature `sign(sk, msg)`; symbolic, carrying
the signing key name and the message (messages here are block content
hashes, see `Block.hash`). -/
structure Sig (μ : Type) where
  sk : Nat
  msg : μ
deriving DecidableEq

/-- Association-list lookup, modelling Python dict / tree key lookup. -/
def lookupAssoc [DecidableEq κ] : List (κ × ν) → κ → Option ν
  | [], _ => none
  | (k, v) :: rest, key => if k = key then some v else lookupAssoc rest key

/-- Association-list insert-or-overwrite, modelling Python dict assignment
(an existing key keeps its position, a new key is appended, matching CPython
dict insertion-order semantics). -/
def insertAssoc [DecidableEq κ] : List (κ × ν) → κ → ν → List (κ × ν)
  | [], key, value => [(key, value)]
  | (k, v) :: rest, key, value =>
      if k = key then (k, value) :: rest else (k, v) :: insertAssoc rest key value

/-- The map of encrypted items committed into a block's tree. -/
abbrev EncMap := List (HKey × EncItem)

/-- The side index `label → vrf_val` built during commit. -/
abbrev VrfIdx := List (Bytes × VrfVal)

/-- Modelled from the spec (6, Tree): the authenticated tree is keyed by
lookup keys; its root hash is the canonical content of the tree (the
content-addressing collapses the hash to the content), and is null when the
tree holds no entries, as `hippiehug.Tree.root_hash` is `None` for an empty
tree. -/
def treeRootHash (t : EncMap) : Option EncMap :=
  if t = [] then none else some t

/-- Block metadata, from `state.py` (`Metadata`). -/
structure Metadata where
  params : PublicParams
  identity_info : Option Bytes
deriving DecidableEq

/-- Protocol version constant, from `state.py` (`PROTOCOL_VERSION = 1`). -/
def PROTOCOL_VERSION : Nat := 1

/-- Block payload, from `state.py` (`Payload`): Merkle tree root hash,
metadata, nonce, Unix timestamp and protocol version.  The serialized form
(`Payload.export` / `asdict`) is faithful, so payload records are compared
directly: two payloads have equal serializations iff they are equal. -/
structure Payload where
  mtr_hash : Option EncMap
  metadata : Metadata
  nonce : Bytes
  timestamp : Nat
  version : Nat
deriving DecidableEq

/-- `Payload.build(tree, nonce, identity_info)` from `state.py`: the default
local params are exported into the metadata, `mtr_hash` is the tree root (or
null for an empty tree), and the timestamp defaults to the current time,
which is passed explicitly here as `now`. -/
def Payload.build (tree : EncMap) (nonce : Bytes) (p : LocalParams)
    (identity_info : Option Bytes) (now : Nat) : Payload :=
  { metadata := { params := p.public_export, identity_info := identity_info },
    mtr_hash := treeRootHash tree,
    nonce := nonce,
    timestamp := now,
    version := PROTOCOL_VERSION }

/-- `Payload.from_dict(exported)` from `state.py`: re-imports a serialized
payload.  Note that it performs no protocol-version check: any version value
is accepted as-is. -/
def Payload.from_dict (exported : Payload) : Payload := exported

/-- A block: serialized payload plus the signature in the auxiliary slot,
per the spec's block format (6). -/
structure Block where
  payload : Payload
  aux : Option (Sig Payload)
deriving DecidableEq

/-- Modelled from the spec (6, Block format): the block's content hash is
computed over the body with the auxiliary (signature) slot cleared to its
canonical null value; with content-addressing collapsed, the hash of a block
with cleared aux is its payload. -/
def Block.hash (b : Block) : Payload := b.payload

/-- Modelled from the spec: `sign(sk, msg)` over the owner's signature key. -/
def sign (sig_sk : Nat) (msg : Payload) : Sig Payload := ⟨sig_sk, msg⟩

/-- Modelled from the spec: `verify_signature(pk, sig, msg)`. -/
def verify_signature (sig_pk : Nat) (sig : Sig Payload) (msg : Payload) : Bool :=
  sig = ⟨sig_pk, msg⟩

/-- `_sign_block(block)` from `state.py`: signs the block's content hash and
stores the signature in the auxiliary slot. -/
def sign_block (sig_sk : Nat) (b : Block) : Block :=
  { b with aux := some (sign sig_sk b.hash) }

/-- Modelled from the spec (6, Chain): an append-only chain of blocks, newest
first; the head is the newest block, and the content-addressed store lets the
head hash retrieve the head block. -/
structure Chain where
  blocks : List Block
deriving DecidableEq

/-- ClaimChain owner state, from `state.py` (`State`): pending claims keyed by
label, pending capability grants keyed by reader DH public key, and the
cached commit artifacts. -/
structure State where
  identity_info : Option Bytes
  claim_content_by_label : List (Bytes × Bytes)
  caps_by_reader_pk : List (Nat × List Bytes)
  enc_items_map : EncMap
  vrf_value_by_label : VrfIdx
  payload : Option Payload
  tree : Option EncMap
  nonce : Option Bytes
deriving DecidableEq

/-- `State.__init__` from `state.py`: a fresh, empty staging state. -/
def State.init (identity_info : Option Bytes) : State :=
  { identity_info := identity_info,
    claim_content_by_label := [],
    caps_by_reader_pk := [],
    enc_items_map := [],
    vrf_value_by_label := [],
    payload := none,
    tree := none,
    nonce := none }

/-- `State.__setitem__` from `state.py`: stage a claim (last write wins). -/
def State.setItem (s : State) (claim_label claim_content : Bytes) : State :=
  { s with claim_content_by_label :=
      insertAssoc s.claim_content_by_label claim_label claim_content }

/-- Set union on label lists, modelling Python `set.update`. -/
def unionLabels (existing new_labels : List Bytes) : List Bytes :=
  new_labels.foldl (fun acc l => if l ∈ acc then acc else acc ++ [l]) existing

/-- `State.grant_access` from `state.py`: union the labels into the reader's
grant set (the defaultdict creates an empty set for a new reader). -/
def State.grant_access (s : State) (reader_dh_pk : Nat) (claim_labels : List Bytes) :
    State :=
  if reader_dh_pk ∈ s.caps_by_reader_pk.map Prod.fst then
    { s with caps_by_reader_pk := s.caps_by_reader_pk.map fun e =>
        if e.1 = reader_dh_pk then (e.1, unionLabels e.2 claim_labels) else e }
  else
    { s with caps_by_reader_pk :=
        s.caps_by_reader_pk ++ [(reader_dh_pk, unionLabels [] claim_labels)] }

/-- `State.revoke_access` from `state.py`: subtract the labels from the
reader's grant set (the defaultdict creates an empty set for a new reader). -/
def State.revoke_access (s : State) (reader_dh_pk : Nat) (claim_labels : List Bytes) :
    State :=
  if reader_dh_pk ∈ s.caps_by_reader_pk.map Prod.fst then
    { s with caps_by_reader_pk := s.caps_by_reader_pk.map fun e =>
        if e.1 = reader_dh_pk then (e.1, e.2.filter fun l => l ∉ claim_labels) else e }
  else
    { s with caps_by_reader_pk := s.caps_by_reader_pk ++ [(reader_dh_pk, [])] }

/-- `State.get_capabilities` from `state.py`. -/
def State.get_capabilities (s : State) (reader_dh_pk : Nat) : List Bytes :=
  (lookupAssoc s.caps_by_reader_pk reader_dh_pk).getD []

/-- `State.clear` from `state.py`: clears the pending claims, the pending
grants, and the cached commit artifacts (the cached nonce is not cleared by
the source and is kept here too). -/
def State.clear (s : State) : State :=
  { s with claim_content_by_label := [],
           caps_by_reader_pk := [],
           enc_items_map := [],
           vrf_value_by_label := [],
           payload := none,
           tree := none }

/-- The claim-encoding loop of `State.commit` (state.py lines 151-158): for
each pending claim, encode it and record `lookup_key → enc_claim` in the item
map and `label → vrf_val` in the side index. -/
def encodeClaimsAcc (vrf_sk : Nat) (nonce : Bytes) :
    List (Bytes × Bytes) → EncMap × VrfIdx → EncMap × VrfIdx
  | [], acc => acc
  | (claim_label, claim_content) :: rest, acc =>
      let e := encode_claim vrf_sk nonce claim_label claim_content
      encodeClaimsAcc vrf_sk nonce rest
        (insertAssoc acc.1 e.2.1 e.2.2, insertAssoc acc.2 claim_label e.1)

/-- The inner capability-encoding loop of `State.commit` (state.py lines
161-172) for a single reader: for each granted label look up its VRF value;
if absent, emit a warning naming the label and stop processing this reader's
remaining grants (the `break`); otherwise encode the capability into the item
map. -/
def addCapsForReader (owner_dh_sk : Nat) (nonce : Bytes) (idx : VrfIdx)
    (reader_dh_pk : Nat) : List Bytes → EncMap → EncMap × List Bytes
  | [], m => (m, [])
  | claim_label :: rest, m =>
      match lookupAssoc idx claim_label with
      | none => (m, [claim_label])
      | some vrf_value =>
          let e := encode_capability owner_dh_sk reader_dh_pk nonce claim_label vrf_value
          addCapsForReader owner_dh_sk nonce idx reader_dh_pk rest
            (insertAssoc m e.1 e.2)

/-- The outer capability-encoding loop of `State.commit` over all readers,
collecting the emitted warnings. -/
def addCaps (owner_dh_sk : Nat) (nonce : Bytes) (idx : VrfIdx) :
    List (Nat × List Bytes) → EncMap → EncMap × List Bytes
  | [], m => (m, [])
  | (reader_dh_pk, caps) :: rest, m =>
      let u := addCapsForReader owner_dh_sk nonce idx reader_dh_pk caps m
      let w := addCaps owner_dh_sk nonce idx rest u.1
      (w.1, u.2 ++ w.2)

/-- The result of `State.commit`: the updated state (with cached artifacts),
the extended chain, the appended head block, and the warnings emitted for
grants without a matching claim. -/
structure CommitResult where
  state : State
  chain : Chain
  headBlock : Block
  warnings : List Bytes
deriving DecidableEq

/-- The nonce resolution of `State.commit` (state.py line 148-149):
`nonce or os.urandom(nonce_size)`.  Python's `or` tests truthiness, so both
a missing nonce (`None`) and a caller-supplied empty byte string (falsy) are
replaced by the fresh `os.urandom` sample; only a nonempty caller-supplied
nonce is kept. -/
def commitNonce (nonceOpt : Option Bytes) (entropy : Bytes) : Bytes :=
  match nonceOpt with
  | none => entropy
  | some nv => if nv = [] then entropy else nv

/-- The sealing body of `State.commit` from `state.py`, given the resolved
nonce: encode the pending claims, encode the pending capabilities (skipping
a reader's remaining grants on a missing label), build the tree, build the
payload, sign the block and append it to the chain; cache the tree, payload,
nonce, item map and `label → vrf_val` index in the state. -/
def State.commitWith (p : LocalParams) (s : State) (target_chain : Chain)
    (nonce : Bytes) (now : Nat) : CommitResult :=
  let encoded := encodeClaimsAcc p.vrf nonce s.claim_content_by_label ([], [])
  let withCaps := addCaps p.dh nonce encoded.2 s.caps_by_reader_pk encoded.1
  let tree := withCaps.1
  let payload := Payload.build tree nonce p s.identity_info now
  let block := sign_block p.sig { payload := payload, aux := none }
  { state := { s with enc_items_map := tree,
                      vrf_value_by_label := encoded.2,
                      payload := some payload,
                      tree := some tree,
                      nonce := some nonce },
    chain := { blocks := block :: target_chain.blocks },
    headBlock := block,
    warnings := withCaps.2 }

/-- `State.commit` from `state.py`: resolve the nonce per Python's
`nonce or os.urandom(...)` (see `commitNonce`; the `entropy` argument is the
explicit `os.urandom` sample, and `now` the current time used for the
payload timestamp), then seal the staged state with `State.commitWith`. -/
def State.commit (p : LocalParams) (s : State) (target_chain : Chain)
    (nonceOpt : Option Bytes) (entropy : Bytes) (now : Nat) : CommitResult :=
  State.commitWith p s target_chain (commitNonce nonceOpt entropy) now

/-- An evidence artifact returned by `State.compute_evidence_keys`: either an
internal tree-node hash or the hash of an encoded leaf item.  Modelled from
the spec (4.6, 6): the collaborator tree's inclusion proofs are collapsed to
a single root node, content-addressed. -/
inductive EvKey where
  | nodeHash (node : EncMap)
  | itemHash (item : Option EncItem)
deriving DecidableEq

/-- Modelled from the spec (6, Tree): `tree.evidence(key)` returns the
inclusion-proof nodes for a key together with the terminal item; collapsed
here to the single root node and the looked-up leaf. -/
def treeEvidence (t : EncMap) (key : HKey) : EncMap × Option EncItem :=
  (t, lookupAssoc t key)

/-- `State.compute_evidence_keys` from `state.py`: hashes of all nodes that
prove inclusion of a claim label for a reader.  The lookup of the label in
the cached `label → vrf_val` index comes first; on a missing label the
`KeyError` handler returns the empty set.  A missing cached nonce or tree
(which in the source would escape as an uncaught `AttributeError` or a
`State not committed yet` error) is modelled as `none`. -/
def State.compute_evidence_keys (p : LocalParams) (s : State)
    (reader_dh_pk : Nat) (claim_label : Bytes) : Option (List EvKey) :=
  match lookupAssoc s.vrf_value_by_label claim_label with
  | none => some []
  | some vrf_value =>
      match s.nonce, s.tree with
      | some nonce, some tree =>
          let cap_lookup_key := get_capability_lookup_key p.dh reader_dh_pk nonce claim_label
          let cap_ev := treeEvidence tree cap_lookup_key
          let claim_lookup_key := compute_claim_key vrf_value ClaimKeyMode.lookup
          let claim_ev := treeEvidence tree claim_lookup_key
          some [EvKey.nodeHash cap_ev.1, EvKey.nodeHash claim_ev.1,
                EvKey.itemHash claim_ev.2, EvKey.itemHash cap_ev.2]
      | _, _ => none

/-- Error kinds surfaced by `View`, following the spec's error taxonomy (7)
plus the source's `ValueError("The chain does not have a claim map.")`,
which corresponds to no kind in the taxonomy and is kept distinct. -/
inductive ViewErr where
  | accessDenied
  | missingClaim
  | noClaimMap
  | decodeError
  | invalidSignature
  | treeMismatch
  | blockNotFound
deriving DecidableEq

/-- A view of an existing chain, from `state.py` (`View`): the viewer's local
params, the head block, the block's nonce, and the reconstructed tree (absent
when the payload carries no tree root, modelling the never-assigned
`self.tree` attribute). -/
structure View where
  viewer_params : LocalParams
  latest_block : Block
  nonce : Bytes
  tree : Option EncMap
deriving DecidableEq

/-- `View.__init__` from `state.py`: fetch the head block, parse its payload,
and reconstruct the tree from `mtr_hash` (checking a caller-supplied tree
against the root hash in the chain).  No protocol-version check is
performed. -/
def View.init (viewer_params : LocalParams) (source_chain : Chain)
    (source_tree : Option EncMap) : Except ViewErr View :=
  match source_chain.blocks.head? with
  | none => Except.error ViewErr.blockNotFound
  | some latest_block =>
      let payload := Payload.from_dict latest_block.payload
      match payload.mtr_hash with
      | none => Except.ok { viewer_params := viewer_params,
                            latest_block := latest_block,
                            nonce := payload.nonce,
                            tree := none }
      | some root =>
          let t := source_tree.getD root
          if treeRootHash t ≠ some root then Except.error ViewErr.treeMismatch
          else Except.ok { viewer_params := viewer_params,
                           latest_block := latest_block,
                           nonce := payload.nonce,
                           tree := some t }

/-- `View.payload` from `state.py`: the head block's parsed payload. -/
def View.payloadOf (v : View) : Payload := Payload.from_dict v.latest_block.payload

/-- `View.params` from `state.py`: the chain owner's public params declared in
the head block's own metadata. -/
def View.params (v : View) : PublicParams := v.payloadOf.metadata.params

/-- `View.validate` from `state.py`: verify the signature stored in the
block's auxiliary slot against the `sig_pk` declared in the block's own
metadata, over the block's content hash computed with the signature slot
cleared. -/
def View.validate (v : View) : Except ViewErr Unit :=
  match v.latest_block.aux with
  | none => Except.error ViewErr.invalidSignature
  | some sig =>
      if verify_signature v.params.sig sig (Block.hash { v.latest_block with aux := none })
      then Except.ok ()
      else Except.error ViewErr.invalidSignature

/-- `View._lookup_capability` from `state.py`: derive the capability lookup
key from the viewer's DH key and the owner's DH public key, query the tree
(a miss is the access-denied `KeyError`; an absent tree is the
`ValueError("The chain does not have a claim map.")`), and decode. -/
def View.lookupCapability (v : View) (claim_label : Bytes) :
    Except ViewErr (VrfVal × HKey) :=
  let cap_lookup_key :=
    get_capability_lookup_key v.viewer_params.dh v.params.dh v.nonce claim_label
  match v.tree with
  | none => Except.error ViewErr.noClaimMap
  | some t =>
      match lookupAssoc t cap_lookup_key with
      | none => Except.error ViewErr.accessDenied
      | some cap =>
          match decode_capability v.viewer_params.dh v.params.dh v.nonce claim_label cap with
          | none => Except.error ViewErr.decodeError
          | some res => Except.ok res

/-- `View._lookup_claim` from `state.py`: query the tree for the claim lookup
key (a miss is the `KeyError("Claim not found, but permission to read the
label exists.")`; an absent tree is the no-claim-map `ValueError`), then
decode the claim against the owner's VRF public key. -/
def View.lookupClaim (v : View) (claim_label : Bytes) (vrf_value : VrfVal)
    (claim_lookup_key : HKey) : Except ViewErr Bytes :=
  match v.tree with
  | none => Except.error ViewErr.noClaimMap
  | some t =>
      match lookupAssoc t claim_lookup_key with
      | none => Except.error ViewErr.missingClaim
      | some enc_claim =>
          match decode_claim v.params.vrf v.nonce claim_label vrf_value enc_claim with
          | none => Except.error ViewErr.decodeError
          | some content => Except.ok content

/-- `View.__getitem__` from `state.py`: the owner (same VRF public key as
declared in the block) re-derives the claim key directly; any other viewer
goes through the capability path. -/
def View.getItem (v : View) (claim_label : Bytes) : Except ViewErr Bytes :=
  if v.viewer_params.vrf = v.params.vrf then
    let e := encode_claim v.viewer_params.vrf v.nonce claim_label []
    v.lookupClaim claim_label e.1 e.2.1
  else
    match v.lookupCapability claim_label with
    | Except.error e => Except.error e
    | Except.ok res => v.lookupClaim claim_label res.1 res.2

/-- Convenience composition: construct a view over a chain (with no
caller-supplied tree) and read one label. -/
def viewRead (viewer_params : LocalParams) (source_chain : Chain)
    (claim_label : Bytes) : Except ViewErr Bytes :=
  match View.init viewer_params source_chain none with
  | Except.error e => Except.error e
  | Except.ok v => v.getItem claim_label

/-- Convenience composition: construct a view over a chain and validate the
head block's signature. -/
def viewValidate (viewer_params : LocalParams) (source_chain : Chain) :
    Except ViewErr Unit :=
  match View.init viewer_params source_chain none with
  | Except.error e => Except.error e
  | Except.ok v => v.validate

/-! ### Concrete fixtures used by witnesses and counterexamples -/

/-- Example owner key bundle. -/
def exOwner : LocalParams := ⟨1, 2, 3⟩

/-- Example reader key bundle (all keys distinct from the owner's). -/
def exReader : LocalParams := ⟨4, 5, 6⟩

/-- Example empty chain. -/
def exChain0 : Chain := ⟨[]⟩

/-- Example state with one staged claim `[10] → [42]`. -/
def exStateOne : State := (State.init none).setItem [10] [42]

/-- Example commit of the one-claim state at nonce `[7]`, time `5`. -/
def exCommitOne : CommitResult := State.commit exOwner exStateOne exChain0 (some [7]) [] 5

/-- Example head block rewritten to carry protocol version 2. -/
def exBlockV2 : Block :=
  { payload := { exCommitOne.headBlock.payload with version := 2 },
    aux := exCommitOne.headBlock.aux }

/-- Example chain whose head block declares protocol version 2. -/
def exChainV2 : Chain := ⟨[exBlockV2]⟩

/-- Example commit of a completely empty staging state. -/
def exCommitEmpty : CommitResult :=
  State.commit exOwner (State.init none) exChain0 (some [7]) [] 5

/-- Example state with a grant for the unstaged label `[99]` and nothing staged. -/
def exStateGhostOnly : State := (State.init none).grant_access exReader.dh [[99]]

/-- Example state with claim `[10] → [42]` staged and a grant for the unstaged
label `[99]` followed by the staged label `[10]`. -/
def exStateGhostPlus : State := exStateOne.grant_access exReader.dh [[99], [10]]

/-- Example state with nothing staged where the reader's access to `[10]` was
granted and then revoked. -/
def exStateRevokedEmpty : State :=
  ((State.init none).grant_access exReader.dh [[10]]).revoke_access exReader.dh [[10]]

/-- Example state with claim `[10] → [42]` staged and a dangling pending grant
for the unstaged label `[99]` already buffered for the reader. -/
def exStateDangling : State := exStateOne.grant_access exReader.dh [[99]]

/-- Example state with two staged claims `[10] → [42]` and `[11] → [43]`. -/
def exStateTwo : State := (((State.init none).setItem [10] [42]).setItem [11] [43])

/-- Example state with two staged claims and a prior pending grant of the
staged label `[11]` to the reader. -/
def exStatePriorGrant : State := exStateTwo.grant_access exReader.dh [[11]]

/-! ### Association-list lemmas -/

theorem lookupAssoc_insert_self [DecidableEq κ] (m : List (κ × ν)) (k : κ) (v : ν) :
    lookupAssoc (insertAssoc m k v) k = some v := by
  induction m with
  | nil => simp [insertAssoc, lookupAssoc]
  | cons e rest ih =>
      by_cases h : e.1 = k
      · obtain ⟨a, b⟩ := e
        simp only at h
        simp [insertAssoc, lookupAssoc, h]
      · obtain ⟨a, b⟩ := e
        simp only at h
        simp [insertAssoc, lookupAssoc, h, ih]

theorem lookupAssoc_insert_ne [DecidableEq κ] (m : List (κ × ν)) (k k' : κ) (v : ν)
    (h : k' ≠ k) : lookupAssoc (insertAssoc m k v) k' = lookupAssoc m k' := by
  induction m with
  | nil => simp [insertAssoc, lookupAssoc, Ne.symm h]
  | cons e rest ih =>
      obtain ⟨a, b⟩ := e
      by_cases ha : a = k
      · simp [insertAssoc, lookupAssoc, ha, Ne.symm h]
      · by_cases ha' : a = k'
        · simp [insertAssoc, lookupAssoc, ha, ha', h]
        · simp [insertAssoc, lookupAssoc, ha, ha', ih]

theorem lookupAssoc_ne_nil [DecidableEq κ] {m : List (κ × ν)} {k : κ} {v : ν}
    (h : lookupAssoc m k = some v) : m ≠ [] := by
  intro hnil
  rw [hnil] at h
  simp [lookupAssoc] at h

/-! ### Injectivity of the symbolic key derivations -/

theorem dh_comm (a b : Nat) : dh a b = dh b a := by
  simp [dh, Nat.min_comm, Nat.max_comm]

theorem dh_right_inj {o r1 r2 : Nat} (h : dh o r1 = dh o r2) : r1 = r2 := by
  simp only [dh, Prod.mk.injEq] at h
  omega

theorem claimKey_inj {sk : Nat} {n l1 l2 : Bytes}
    (h : HKey.claimLookup (vrf_eval sk (n ++ l1)) = HKey.claimLookup (vrf_eval sk (n ++ l2))) :
    l1 = l2 := by
  simp only [vrf_eval, HKey.claimLookup.injEq, VrfVal.mk.injEq, true_and] at h
  exact List.append_cancel_left h

theorem capKey_inj {o r1 r2 : Nat} {n l1 l2 : Bytes}
    (h : HKey.capLookup (dh o r1) n l1 = HKey.capLookup (dh o r2) n l2) :
    r1 = r2 ∧ l1 = l2 := by
  simp only [HKey.capLookup.injEq] at h
  exact ⟨dh_right_inj h.1, h.2.2⟩

/-! ### Lemmas about the claim-encoding loop of commit -/

theorem encodeClaimsAcc_map_eq (sk : Nat) (n : Bytes) (claims : List (Bytes × Bytes))
    (acc : EncMap × VrfIdx) (k : HKey)
    (h : ∀ l ∈ claims.map Prod.fst, k ≠ HKey.claimLookup (vrf_eval sk (n ++ l))) :
    lookupAssoc (encodeClaimsAcc sk n claims acc).1 k = lookupAssoc acc.1 k := by
  induction claims generalizing acc with
  | nil => rfl
  | cons e rest ih =>
      obtain ⟨l, c⟩ := e
      simp only [encodeClaimsAcc, encode_claim, compute_claim_key]
      rw [ih _ fun l' hl' => h l' (by simp [hl'])]
      exact lookupAssoc_insert_ne _ _ _ _ (h l (by simp))

theorem encodeClaimsAcc_idx_eq (sk : Nat) (n : Bytes) (claims : List (Bytes × Bytes))
    (acc : EncMap × VrfIdx) (l : Bytes)
    (h : l ∉ claims.map Prod.fst) :
    lookupAssoc (encodeClaimsAcc sk n claims acc).2 l = lookupAssoc acc.2 l := by
  induction claims generalizing acc with
  | nil => rfl
  | cons e rest ih =>
      obtain ⟨l0, c0⟩ := e
      simp only [List.map_cons, List.mem_cons] at h
      push_neg at h
      simp only [encodeClaimsAcc, encode_claim, compute_claim_key]
      rw [ih _ h.2]
      exact lookupAssoc_insert_ne _ _ _ _ h.1

theorem encodeClaimsAcc_map_present (sk : Nat) (n : Bytes) (claims : List (Bytes × Bytes))
    (acc : EncMap × VrfIdx) (l c : Bytes)
    (hnodup : (claims.map Prod.fst).Nodup)
    (hl : lookupAssoc claims l = some c) :
    lookupAssoc (encodeClaimsAcc sk n claims acc).1
        (HKey.claimLookup (vrf_eval sk (n ++ l)))
      = some (EncItem.claim (aead_seal (HKey.claimEnc (vrf_eval sk (n ++ l))) n l c)) := by
  induction claims generalizing acc with
  | nil => simp [lookupAssoc] at hl
  | cons e rest ih =>
      obtain ⟨l0, c0⟩ := e
      simp only [List.map_cons, List.nodup_cons] at hnodup
      by_cases h0 : l0 = l
      · subst h0
        simp [lookupAssoc] at hl
        subst hl
        simp only [encodeClaimsAcc, encode_claim, compute_claim_key]
        rw [encodeClaimsAcc_map_eq]
        · exact lookupAssoc_insert_self _ _ _
        · intro l' hl' heq
          exact hnodup.1 (claimKey_inj heq ▸ hl')
      · simp only [lookupAssoc, if_neg h0] at hl
        simp only [encodeClaimsAcc, encode_claim, compute_claim_key]
        exact ih _ hnodup.2 hl

theorem encodeClaimsAcc_idx_present (sk : Nat) (n : Bytes) (claims : List (Bytes × Bytes))
    (acc : EncMap × VrfIdx) (l c : Bytes)
    (hnodup : (claims.map Prod.fst).Nodup)
    (hl : lookupAssoc claims l = some c) :
    lookupAssoc (encodeClaimsAcc sk n claims acc).2 l = some (vrf_eval sk (n ++ l)) := by
  induction claims generalizing acc with
  | nil => simp [lookupAssoc] at hl
  | cons e rest ih =>
      obtain ⟨l0, c0⟩ := e
      simp only [List.map_cons, List.nodup_cons] at hnodup
      by_cases h0 : l0 = l
      · subst h0
        simp only [encodeClaimsAcc, encode_claim, compute_claim_key]
        rw [encodeClaimsAcc_idx_eq _ _ _ _ _ hnodup.1]
        exact lookupAssoc_insert_self _ _ _
      · simp only [lookupAssoc, if_neg h0] at hl
        simp only [encodeClaimsAcc, encode_claim, compute_claim_key]
        exact ih _ hnodup.2 hl

/-! ### Lemmas about the capability-encoding loops of commit -/

theorem addCapsForReader_eq (o : Nat) (n : Bytes) (idx : VrfIdx) (r : Nat)
    (labels : List Bytes) (m : EncMap) (k : HKey)
    (h : ∀ l ∈ labels, k ≠ HKey.capLookup (dh o r) n l ∨ lookupAssoc idx l = none) :
    lookupAssoc (addCapsForReader o n idx r labels m).1 k = lookupAssoc m k := by
  induction labels generalizing m with
  | nil => rfl
  | cons l rest ih =>
      simp only [addCapsForReader]
      cases hv : lookupAssoc idx l with
      | none => rfl
      | some v =>
          simp only [encode_capability]
          rw [ih _ fun l' hl' => h l' (by simp [hl'])]
          refine lookupAssoc_insert_ne _ _ _ _ ?_
          rcases h l (by simp) with hk | hnone
          · exact hk
          · rw [hv] at hnone; cases hnone

theorem addCaps_eq (o : Nat) (n : Bytes) (idx : VrfIdx)
    (caps : List (Nat × List Bytes)) (m : EncMap) (k : HKey)
    (h : ∀ e ∈ caps, ∀ l ∈ e.2, k ≠ HKey.capLookup (dh o e.1) n l ∨ lookupAssoc idx l = none) :
    lookupAssoc (addCaps o n idx caps m).1 k = lookupAssoc m k := by
  induction caps generalizing m with
  | nil => rfl
  | cons e rest ih =>
      obtain ⟨r, labels⟩ := e
      simp only [addCaps]
      rw [ih _ fun e' he' => h e' (by simp [he'])]
      exact addCapsForReader_eq o n idx r labels m k (h (r, labels) (by simp))

theorem addCaps_claim_eq (o : Nat) (n : Bytes) (idx : VrfIdx)
    (caps : List (Nat × List Bytes)) (m : EncMap) (v : VrfVal) :
    lookupAssoc (addCaps o n idx caps m).1 (HKey.claimLookup v)
      = lookupAssoc m (HKey.claimLookup v) := by
  refine addCaps_eq o n idx caps m _ ?_
  intro e he l hl
  left
  intro hk
  cases hk

theorem addCapsForReader_break (o : Nat) (n : Bytes) (idx : VrfIdx) (r : Nat)
    (pre post : List Bytes) (g : Bytes) (m : EncMap)
    (hg : lookupAssoc idx g = none)
    (hpre : ∀ l ∈ pre, (lookupAssoc idx l).isSome) :
    addCapsForReader o n idx r (pre ++ g :: post) m
      = ((addCapsForReader o n idx r pre m).1, [g]) := by
  induction pre generalizing m with
  | nil => simp [addCapsForReader, hg]
  | cons l rest ih =>
      have hl := hpre l (by simp)
      cases hv : lookupAssoc idx l with
      | none => rw [hv] at hl; cases hl
      | some v =>
          simp only [List.cons_append, addCapsForReader, hv]
          exact ih _ fun l' hl' => hpre l' (by simp [hl'])

theorem addCapsForReader_single (o : Nat) (n : Bytes) (idx : VrfIdx) (r : Nat)
    (l : Bytes) (v : VrfVal) (m : EncMap)
    (hv : lookupAssoc idx l = some v) :
    addCapsForReader o n idx r [l] m
      = (insertAssoc m (HKey.capLookup (dh o r) n l)
          (EncItem.cap (aead_seal (HKey.capEnc (dh o r) n l) n l v)), []) := by
  simp [addCapsForReader, hv, encode_capability]

theorem lookup_addCapsForReader_present (o : Nat) (n : Bytes) (idx : VrfIdx)
    (r : Nat) (labels : List Bytes) (m : EncMap) (l : Bytes) (v : VrfVal)
    (hall : ∀ l' ∈ labels, (lookupAssoc idx l').isSome)
    (hnd : labels.Nodup) (hmem : l ∈ labels)
    (hv : lookupAssoc idx l = some v) :
    lookupAssoc (addCapsForReader o n idx r labels m).1 (HKey.capLookup (dh o r) n l)
      = some (EncItem.cap (aead_seal (HKey.capEnc (dh o r) n l) n l v)) := by
  induction labels generalizing m with
  | nil => cases hmem
  | cons l0 rest ih =>
      have h0 := hall l0 (by simp)
      cases h0v : lookupAssoc idx l0 with
      | none => rw [h0v] at h0; cases h0
      | some v0 =>
          simp only [addCapsForReader, h0v, encode_capability]
          rcases List.mem_cons.mp hmem with heq | hmem'
          · subst heq
            rw [hv] at h0v
            injection h0v with hvv
            subst hvv
            rw [addCapsForReader_eq]
            · exact lookupAssoc_insert_self _ _ _
            · intro l' hl'
              left
              intro hk
              obtain ⟨-, hel⟩ := capKey_inj hk
              exact (List.nodup_cons.mp hnd).1 (hel ▸ hl')
          · exact ih _ (fun l' hl' => hall l' (by simp [hl'])) (List.nodup_cons.mp hnd).2
              hmem'

theorem addCaps_append (o : Nat) (n : Bytes) (idx : VrfIdx)
    (capsA capsB : List (Nat × List Bytes)) (m : EncMap) :
    addCaps o n idx (capsA ++ capsB) m
      = ((addCaps o n idx capsB (addCaps o n idx capsA m).1).1,
         (addCaps o n idx capsA m).2
           ++ (addCaps o n idx capsB (addCaps o n idx capsA m).1).2) := by
  induction capsA generalizing m with
  | nil => simp [addCaps]
  | cons e rest ih =>
      obtain ⟨r, labels⟩ := e
      simp only [List.cons_append, addCaps]
      rw [show rest.append capsB = rest ++ capsB from rfl, ih]
      simp [List.append_assoc]

theorem addCapsForReader_nil_idx (o : Nat) (n : Bytes) (r : Nat)
    (labels : List Bytes) (m : EncMap) :
    (addCapsForReader o n [] r labels m).1 = m := by
  cases labels with
  | nil => rfl
  | cons l rest => simp [addCapsForReader, lookupAssoc]

theorem addCaps_nil_idx (o : Nat) (n : Bytes)
    (caps : List (Nat × List Bytes)) (m : EncMap) :
    (addCaps o n [] caps m).1 = m := by
  induction caps generalizing m with
  | nil => rfl
  | cons e rest ih =>
      obtain ⟨r, labels⟩ := e
      simp only [addCaps]
      rw [addCapsForReader_nil_idx]
      exact ih m

theorem encodeClaimsAcc_no_capKey (sk : Nat) (n : Bytes)
    (claims : List (Bytes × Bytes)) (acc : EncMap × VrfIdx)
    (shared : Nat × Nat) (nn ll : Bytes)
    (hacc : lookupAssoc acc.1 (HKey.capLookup shared nn ll) = none) :
    lookupAssoc (encodeClaimsAcc sk n claims acc).1 (HKey.capLookup shared nn ll) = none := by
  rw [encodeClaimsAcc_map_eq]
  · exact hacc
  · intro l hl hk
    cases hk

theorem insertAssoc_ne_nil [DecidableEq κ] (m : List (κ × ν)) (k : κ) (v : ν) :
    insertAssoc m k v ≠ [] := by
  cases m with
  | nil => simp [insertAssoc]
  | cons e rest =>
      obtain ⟨a, b⟩ := e
      by_cases h : a = k <;> simp [insertAssoc, h]

theorem listMapIdOn (l : List α) (f : α → α) (h : ∀ a ∈ l, f a = a) : l.map f = l := by
  induction l with
  | nil => rfl
  | cons a rest ih =>
      simp only [List.map_cons]
      rw [h a (by simp), ih fun a' ha' => h a' (by simp [ha'])]

theorem lookupAssoc_mem_keys [DecidableEq κ] {m : List (κ × ν)} {k : κ}
    (h : k ∈ m.map Prod.fst) : ∃ v, lookupAssoc m k = some v := by
  induction m with
  | nil => simp at h
  | cons e rest ih =>
      obtain ⟨a, b⟩ := e
      by_cases ha : a = k
      · exact ⟨b, by simp [lookupAssoc, ha]⟩
      · simp only [List.map_cons, List.mem_cons] at h
        rcases h with h | h
        · exact absurd h.symm ha
        · obtain ⟨v, hv⟩ := ih h
          exact ⟨v, by simp [lookupAssoc, ha, hv]⟩

theorem addCaps_warn_of_break (o : Nat) (n : Bytes) (idx : VrfIdx)
    (capsA capsB : List (Nat × List Bytes)) (r : Nat) (pre post : List Bytes)
    (g : Bytes) (m : EncMap)
    (hg : lookupAssoc idx g = none)
    (hpre : ∀ l ∈ pre, (lookupAssoc idx l).isSome) :
    g ∈ (addCaps o n idx (capsA ++ (r, pre ++ g :: post) :: capsB) m).2 := by
  rw [addCaps_append]
  simp only [addCaps]
  rw [addCapsForReader_break o n idx r pre post g _ hg hpre]
  simp

theorem addCaps_break_no_cap (o : Nat) (n : Bytes) (idx : VrfIdx)
    (capsA capsB : List (Nat × List Bytes)) (r : Nat) (pre post : List Bytes)
    (g : Bytes) (m : EncMap)
    (hg : lookupAssoc idx g = none)
    (hpre : ∀ l ∈ pre, (lookupAssoc idx l).isSome)
    (hrA : r ∉ capsA.map Prod.fst) (hrB : r ∉ capsB.map Prod.fst)
    (l2 : Bytes) (hl2 : l2 ∉ pre)
    (hm : lookupAssoc m (HKey.capLookup (dh o r) n l2) = none) :
    lookupAssoc (addCaps o n idx (capsA ++ (r, pre ++ g :: post) :: capsB) m).1
      (HKey.capLookup (dh o r) n l2) = none := by
  rw [addCaps_append]
  simp only [addCaps]
  rw [addCapsForReader_break o n idx r pre post g _ hg hpre]
  rw [addCaps_eq]
  · rw [addCapsForReader_eq]
    · rw [addCaps_eq]
      · exact hm
      · intro ev hev l' hl'
        left
        intro hk
        obtain ⟨her, -⟩ := capKey_inj hk
        exact hrA (her ▸ List.mem_map_of_mem Prod.fst hev)
    · intro l' hl'
      left
      intro hk
      obtain ⟨-, hel⟩ := capKey_inj hk
      exact hl2 (hel ▸ hl')
  · intro ev hev l' hl'
    left
    intro hk
    obtain ⟨her, -⟩ := capKey_inj hk
    exact hrB (her ▸ List.mem_map_of_mem Prod.fst hev)

theorem addCaps_no_cap (o : Nat) (n : Bytes) (idx : VrfIdx)
    (caps : List (Nat × List Bytes)) (m : EncMap) (r : Nat) (l2 : Bytes)
    (h : ∀ ev ∈ caps, ev.1 = r → l2 ∈ ev.2 → lookupAssoc idx l2 = none)
    (hm : lookupAssoc m (HKey.capLookup (dh o r) n l2) = none) :
    lookupAssoc (addCaps o n idx caps m).1 (HKey.capLookup (dh o r) n l2) = none := by
  refine (addCaps_eq o n idx caps m _ ?_).trans hm
  intro ev hev l' hl'
  by_cases hk : HKey.capLookup (dh o r) n l2 = HKey.capLookup (dh o ev.1) n l'
  · right
    obtain ⟨her, hel⟩ := capKey_inj hk
    exact hel ▸ h ev hev her.symm (hel ▸ hl')
  · left
    exact hk

theorem addCaps_encode_ne_nil (o vrfsk : Nat) (n : Bytes)
    (claims : List (Bytes × Bytes)) (caps : List (Nat × List Bytes))
    (hnodup : (claims.map Prod.fst).Nodup) (hc : claims ≠ []) :
    (addCaps o n (encodeClaimsAcc vrfsk n claims ([], [])).2 caps
      (encodeClaimsAcc vrfsk n claims ([], [])).1).1 ≠ [] := by
  obtain ⟨⟨l0, c0⟩, rest, hcl⟩ := List.exists_cons_of_ne_nil hc
  have hl0 : lookupAssoc claims l0 = some c0 := by
    rw [hcl]
    simp [lookupAssoc]
  have hp := encodeClaimsAcc_map_present vrfsk n claims ([], []) l0 c0 hnodup hl0
  have h2 : lookupAssoc (addCaps o n (encodeClaimsAcc vrfsk n claims ([], [])).2 caps
      (encodeClaimsAcc vrfsk n claims ([], [])).1).1
      (HKey.claimLookup (vrf_eval vrfsk (n ++ l0)))
      = some (EncItem.claim (aead_seal (HKey.claimEnc (vrf_eval vrfsk (n ++ l0))) n l0 c0)) := by
    rw [addCaps_claim_eq]
    exact hp
  exact lookupAssoc_ne_nil h2

/-! ### Claim theorems -/

/-- C1: for every set of pending claims staged via `State.__setitem__` (an
insertion map with distinct labels), after `State.commit` succeeds, a `View`
constructed by the owner over the resulting chain returns, for each committed
label, exactly the content that was staged. -/
theorem claim1_self_round_trip (p : LocalParams) (s : State) (ch : Chain)
    (n e : Bytes) (t : Nat) (label content : Bytes)
    (hnodup : (s.claim_content_by_label.map Prod.fst).Nodup)
    (hstaged : lookupAssoc s.claim_content_by_label label = some content) :
    viewRead p (State.commit p s ch (some n) e t).chain label = Except.ok content := by
  have hcore : ∀ nv : Bytes,
      viewRead p (State.commitWith p s ch nv t).chain label = Except.ok content := by
    intro nv
    have hm1 := encodeClaimsAcc_map_present p.vrf nv s.claim_content_by_label ([], [])
      label content hnodup hstaged
    have hm2 : lookupAssoc
        (addCaps p.dh nv (encodeClaimsAcc p.vrf nv s.claim_content_by_label ([], [])).2
          s.caps_by_reader_pk (encodeClaimsAcc p.vrf nv s.claim_content_by_label ([], [])).1).1
        (HKey.claimLookup (vrf_eval p.vrf (nv ++ label)))
        = some (EncItem.claim (aead_seal (HKey.claimEnc (vrf_eval p.vrf (nv ++ label))) nv label content)) := by
      rw [addCaps_claim_eq]
      exact hm1
    have hne := lookupAssoc_ne_nil hm2
    simp only [vrf_eval, aead_seal] at hm2
    simp [viewRead, View.init, View.getItem, View.lookupClaim, View.params, View.payloadOf,
      State.commitWith, sign_block, Payload.build, Payload.from_dict, treeRootHash, hne,
      encode_claim, compute_claim_key, decode_claim, vrf_verify, aead_open, aead_seal,
      vrf_eval, hm2, LocalParams.public_export]
  exact hcore (commitNonce (some n) e)

/-- Witness for C1: the concrete one-claim state round-trips `[10] → [42]`
through commit and the owner's view. -/
theorem claim1_witness :
    (exStateOne.claim_content_by_label.map Prod.fst).Nodup ∧
    lookupAssoc exStateOne.claim_content_by_label [10] = some [42] ∧
    viewRead exOwner (State.commit exOwner exStateOne exChain0 (some [7]) [] 5).chain [10]
      = Except.ok [42] :=
  ⟨by decide, by decide,
   claim1_self_round_trip exOwner exStateOne exChain0 [7] [] 5 [10] [42]
     (by decide) (by decide)⟩

/-- C2 counterexample: the owner stages `[10] -> [42]` and calls
`grant_access(reader, {[10]})` before commit, but the reader already holds a
pending grant for the unstaged label `[99]`; the commit loop's `break` on the
dangling grant skips the reader's remaining grants, so no capability for
`[10]` is written and the reader's view fails AccessDenied instead of
returning the content, falsifying the claim as stated. -/
theorem claim2_counterexample :
    lookupAssoc exStateDangling.claim_content_by_label [10] = some [42] ∧
    viewRead exReader
      (State.commit exOwner (exStateDangling.grant_access exReader.dh [[10]]) exChain0
        (some [7]) [] 5).chain [10]
      = Except.error ViewErr.accessDenied ∧
    viewRead exReader
      (State.commit exOwner (exStateDangling.grant_access exReader.dh [[10]]) exChain0
        (some [7]) [] 5).chain [10]
      ≠ Except.ok [42] := by
  refine ⟨by decide, by decide, by decide⟩

/-- C2 (amended): for a staged label, granting a reader access before commit
lets a view built with the reader's `LocalParams` read the same content back
through the capability path, provided every label then pending for that
reader has staged content (a pending grant for an unstaged label triggers the
commit loop's `break`, which can skip the new capability, per C6). -/
theorem claim2_reader_round_trip_amended (p reader : LocalParams) (s : State) (ch : Chain)
    (n e : Bytes) (t : Nat) (label content : Bytes)
    (capsA capsB : List (Nat × List Bytes)) (ls : List Bytes)
    (hnodup : (s.claim_content_by_label.map Prod.fst).Nodup)
    (hstaged : lookupAssoc s.claim_content_by_label label = some content)
    (hdecomp : (s.grant_access reader.dh [label]).caps_by_reader_pk
        = capsA ++ (reader.dh, ls) :: capsB)
    (hrA : reader.dh ∉ capsA.map Prod.fst)
    (hrB : reader.dh ∉ capsB.map Prod.fst)
    (hmemls : label ∈ ls)
    (hlsstaged : ∀ l ∈ ls, l ∈ s.claim_content_by_label.map Prod.fst)
    (hlsnodup : ls.Nodup)
    (hother : reader.vrf ≠ p.vrf) :
    viewRead reader
      (State.commit p (s.grant_access reader.dh [label]) ch (some n) e t).chain label
      = Except.ok content := by
  have hs1 : s.grant_access reader.dh [label]
      = { s with caps_by_reader_pk :=
            (s.grant_access reader.dh [label]).caps_by_reader_pk } := by
    unfold State.grant_access
    split <;> rfl
  rw [hdecomp] at hs1
  rw [hs1]
  have hcore : ∀ nv : Bytes,
      viewRead reader
        (State.commitWith p
          { s with caps_by_reader_pk := capsA ++ (reader.dh, ls) :: capsB } ch nv t).chain
        label
      = Except.ok content := by
    intro nv
    have hm1 := encodeClaimsAcc_map_present p.vrf nv s.claim_content_by_label ([], [])
      label content hnodup hstaged
    have hidxlabel := encodeClaimsAcc_idx_present p.vrf nv s.claim_content_by_label ([], [])
      label content hnodup hstaged
    have hallSome : ∀ l' ∈ ls, (lookupAssoc
        (encodeClaimsAcc p.vrf nv s.claim_content_by_label ([], [])).2 l').isSome := by
      intro l' hl'
      obtain ⟨c, hc⟩ := lookupAssoc_mem_keys (hlsstaged l' hl')
      rw [encodeClaimsAcc_idx_present p.vrf nv s.claim_content_by_label ([], []) l' c hnodup hc]
      rfl
    have hcap2 : lookupAssoc
        (addCaps p.dh nv (encodeClaimsAcc p.vrf nv s.claim_content_by_label ([], [])).2
          (capsA ++ (reader.dh, ls) :: capsB)
          (encodeClaimsAcc p.vrf nv s.claim_content_by_label ([], [])).1).1
        (HKey.capLookup (dh p.dh reader.dh) nv label)
        = some (EncItem.cap (aead_seal (HKey.capEnc (dh p.dh reader.dh) nv label) nv label
            (vrf_eval p.vrf (nv ++ label)))) := by
      rw [addCaps_append]
      simp only [addCaps]
      rw [addCaps_eq]
      · exact lookup_addCapsForReader_present p.dh nv _ reader.dh ls _ label _
          hallSome hlsnodup hmemls hidxlabel
      · intro ev hev l' hl'
        left
        intro hk
        obtain ⟨her, -⟩ := capKey_inj hk
        exact hrB (her ▸ List.mem_map_of_mem Prod.fst hev)
    have hclaim2 : lookupAssoc
        (addCaps p.dh nv (encodeClaimsAcc p.vrf nv s.claim_content_by_label ([], [])).2
          (capsA ++ (reader.dh, ls) :: capsB)
          (encodeClaimsAcc p.vrf nv s.claim_content_by_label ([], [])).1).1
        (HKey.claimLookup (vrf_eval p.vrf (nv ++ label)))
        = some (EncItem.claim (aead_seal (HKey.claimEnc (vrf_eval p.vrf (nv ++ label)))
            nv label content)) := by
      rw [addCaps_append]
      simp only [addCaps]
      rw [addCaps_claim_eq]
      rw [addCapsForReader_eq]
      · rw [addCaps_claim_eq]
        exact hm1
      · intro l' hl'
        left
        intro hk
        cases hk
    have hne := lookupAssoc_ne_nil hcap2
    simp only [vrf_eval, aead_seal] at hcap2 hclaim2
    simp [viewRead, View.init, View.getItem, View.lookupClaim, View.lookupCapability,
      View.params, View.payloadOf, State.commitWith, sign_block, Payload.build,
      Payload.from_dict, treeRootHash, hne, get_capability_lookup_key, decode_capability,
      decode_claim, compute_claim_key, vrf_verify, aead_open, aead_seal, vrf_eval,
      hcap2, hclaim2, LocalParams.public_export, hother, dh_comm reader.dh p.dh]
  exact hcore (commitNonce (some n) e)

/-- Witness for the amended C2: with claims `[10]` and `[11]` staged and a
prior pending grant of the staged label `[11]`, granting `[10]` and
committing lets the reader read `[10] -> [42]` back. -/
theorem claim2_witness :
    ((exStatePriorGrant.claim_content_by_label.map Prod.fst).Nodup ∧
      lookupAssoc exStatePriorGrant.claim_content_by_label [10] = some [42] ∧
      (exStatePriorGrant.grant_access exReader.dh [[10]]).caps_by_reader_pk
        = [] ++ (exReader.dh, [[11], [10]]) :: [] ∧
      ([10] : Bytes) ∈ ([[11], [10]] : List Bytes) ∧
      exReader.vrf ≠ exOwner.vrf) ∧
    viewRead exReader
      (State.commit exOwner (exStatePriorGrant.grant_access exReader.dh [[10]]) exChain0
        (some [7]) [] 5).chain [10]
      = Except.ok [42] :=
  ⟨⟨by decide, by decide, by decide, by decide, by decide⟩,
   claim2_reader_round_trip_amended exOwner exReader exStatePriorGrant exChain0 [7] [] 5
     [10] [42] [] [] [[11], [10]] (by decide) (by decide) (by decide) (by decide)
     (by decide) (by decide) (by decide) (by decide) (by decide)⟩

/-- C3 counterexample: committing an empty staging state yields a block with
`mtr_hash = null`, but a lookup on a view of that chain fails with the
no-claim-map error, not with the AccessDenied kind as the claim states. -/
theorem claim3_counterexample :
    exCommitEmpty.headBlock.payload.mtr_hash = none ∧
    viewRead exOwner exCommitEmpty.chain [10] = Except.error ViewErr.noClaimMap ∧
    viewRead exOwner exCommitEmpty.chain [10] ≠ Except.error ViewErr.accessDenied := by
  refine ⟨by decide, by decide, by decide⟩

/-- C3 (amended): committing a `State` with no staged claims and no grants
succeeds and produces a block whose payload has `mtr_hash = null`, and every
lookup by any viewer on a view of that chain fails with the no-claim-map
error (the source's `ValueError("The chain does not have a claim map.")`),
not with AccessDenied. -/
theorem claim3_empty_commit_amended (p viewer : LocalParams) (s : State) (ch : Chain)
    (n e : Bytes) (t : Nat) (label : Bytes)
    (hclaims : s.claim_content_by_label = [])
    (hcaps : s.caps_by_reader_pk = []) :
    (State.commit p s ch (some n) e t).headBlock.payload.mtr_hash = none ∧
    viewRead viewer (State.commit p s ch (some n) e t).chain label
      = Except.error ViewErr.noClaimMap := by
  constructor
  · simp [State.commit, State.commitWith, hclaims, hcaps, encodeClaimsAcc, addCaps,
      sign_block, Payload.build, treeRootHash]
  · by_cases hv : viewer.vrf = p.vrf <;>
    simp [State.commit, State.commitWith, hclaims, hcaps, encodeClaimsAcc, addCaps,
      sign_block, Payload.build,
      Payload.from_dict, treeRootHash, viewRead, View.init, View.getItem, View.lookupClaim,
      View.lookupCapability, View.params, View.payloadOf, LocalParams.public_export,
      encode_claim, compute_claim_key, hv]

/-- Witness for the amended C3 at the concrete empty state. -/
theorem claim3_witness :
    (State.init none).claim_content_by_label = [] ∧
    (State.init none).caps_by_reader_pk = [] ∧
    ((State.commit exOwner (State.init none) exChain0 (some [7]) [] 5).headBlock.payload.mtr_hash
        = none ∧
      viewRead exReader (State.commit exOwner (State.init none) exChain0 (some [7]) [] 5).chain [10]
        = Except.error ViewErr.noClaimMap) :=
  ⟨rfl, rfl,
   claim3_empty_commit_amended exOwner exReader (State.init none) exChain0 [7] [] 5 [10] rfl rfl⟩

/-- C4 counterexample: two runs of `State.commit` with the same staged claims,
the same pending grants and the same caller-supplied nonce can produce
different serialized payloads, falsifying the claimed run-to-run determinism
in two ways: runs at different times differ (the payload embeds the current
timestamp), and runs with a caller-supplied empty nonce differ even at the
same time (the empty nonce is falsy in `nonce or os.urandom(...)` and is
resampled per run). -/
theorem claim4_counterexample :
    (State.commit exOwner exStateOne exChain0 (some [7]) [] 0).headBlock.payload
      ≠ (State.commit exOwner exStateOne exChain0 (some [7]) [] 1).headBlock.payload ∧
    (State.commit exOwner exStateOne exChain0 (some []) [8] 0).headBlock.payload
      ≠ (State.commit exOwner exStateOne exChain0 (some []) [9] 0).headBlock.payload := by
  refine ⟨by decide, by decide⟩

/-- C4 (amended): for any two runs of `State.commit` with the same staged
claims, the same pending grants, the same caller-supplied nonempty nonce, and
the same timestamp, the produced block (and hence the serialized payload and
the chain head) is identical; the entropy input (the `os.urandom` sample,
unused when a nonempty nonce is supplied) does not influence the result.  A
caller-supplied empty nonce is falsy in the source's `nonce or os.urandom`
and behaves exactly like passing no nonce: it is replaced by the fresh
sample. -/
theorem claim4_determinism_amended (p : LocalParams) (s : State) (ch : Chain)
    (n e1 e2 : Bytes) (t : Nat) (hn : n ≠ []) :
    State.commit p s ch (some n) e1 t = State.commit p s ch (some n) e2 t ∧
    State.commit p s ch (some []) e1 t = State.commit p s ch none e1 t := by
  constructor
  · simp [State.commit, commitNonce, hn]
  · rfl

/-- Witness for the amended C4: at the concrete nonempty nonce `[7]` the two
runs agree, and the empty supplied nonce behaves like no nonce. -/
theorem claim4_witness :
    ([7] : Bytes) ≠ [] ∧
    (State.commit exOwner exStateOne exChain0 (some [7]) [] 5
        = State.commit exOwner exStateOne exChain0 (some [7]) [0] 5 ∧
      State.commit exOwner exStateOne exChain0 (some []) [] 5
        = State.commit exOwner exStateOne exChain0 none [] 5) :=
  ⟨by decide, claim4_determinism_amended exOwner exStateOne exChain0 [7] [] [0] 5 (by decide)⟩

/-- C5: a chain whose head block's payload carries protocol version 2 is not
rejected: `View` construction succeeds and the view serves lookups normally;
no version check exists in the code, contradicting the spec's requirement
that readers must reject unknown major versions. -/
theorem claim5_version_accepted :
    exBlockV2.payload.version = 2 ∧
    exBlockV2.payload.version ≠ PROTOCOL_VERSION ∧
    viewRead exOwner exChainV2 [10] = Except.ok [42] := by
  refine ⟨by decide, by decide, by decide⟩

/-- C6 counterexample: a pending grant for an unstaged label on an otherwise
empty staging state commits with a warning and no capability, but the
reader's lookup fails with the no-claim-map error rather than AccessDenied,
falsifying the claim's final clause. -/
theorem claim6_counterexample :
    (State.commit exOwner exStateGhostOnly exChain0 (some [7]) [] 5).warnings = [[99]] ∧
    viewRead exReader (State.commit exOwner exStateGhostOnly exChain0 (some [7]) [] 5).chain [99]
      = Except.error ViewErr.noClaimMap ∧
    viewRead exReader (State.commit exOwner exStateGhostOnly exChain0 (some [7]) [] 5).chain [99]
      ≠ Except.error ViewErr.accessDenied := by
  refine ⟨by decide, by decide, by decide⟩

/-- C6 (amended): during `State.commit`, a pending grant `(reader, ghost)` for
a label with no staged claim makes commit emit a warning naming the label,
skip that reader's remaining grants for the cycle, and still succeed; the
resulting tree contains no capability entry for that reader beyond the labels
processed before the missing one, and the reader's lookup of the label fails
with AccessDenied when at least one claim was committed, and with the
no-claim-map error when the committed block has no tree. -/
theorem claim6_grant_without_claim_amended (p reader : LocalParams) (s : State) (ch : Chain)
    (n e : Bytes) (t : Nat) (ghost : Bytes)
    (capsA capsB : List (Nat × List Bytes)) (pre post : List Bytes)
    (hdecomp : s.caps_by_reader_pk = capsA ++ (reader.dh, pre ++ ghost :: post) :: capsB)
    (hreaderA : reader.dh ∉ capsA.map Prod.fst)
    (hreaderB : reader.dh ∉ capsB.map Prod.fst)
    (hnodup : (s.claim_content_by_label.map Prod.fst).Nodup)
    (hghost : ghost ∉ s.claim_content_by_label.map Prod.fst)
    (hpre : ∀ l ∈ pre, l ∈ s.claim_content_by_label.map Prod.fst)
    (hother : reader.vrf ≠ p.vrf) :
    ghost ∈ (State.commit p s ch (some n) e t).warnings ∧
    (∀ l2, l2 ∉ pre →
      lookupAssoc (State.commit p s ch (some n) e t).state.enc_items_map
        (HKey.capLookup (dh p.dh reader.dh) n l2) = none) ∧
    viewRead reader (State.commit p s ch (some n) e t).chain ghost
      = Except.error (if s.claim_content_by_label = [] then ViewErr.noClaimMap
                      else ViewErr.accessDenied) := by
  have hidxGhost : ∀ nv : Bytes, lookupAssoc
      (encodeClaimsAcc p.vrf nv s.claim_content_by_label ([], [])).2 ghost = none := by
    intro nv
    rw [encodeClaimsAcc_idx_eq _ _ _ _ _ hghost]
    rfl
  have hpreSome : ∀ nv : Bytes, ∀ l ∈ pre, (lookupAssoc
      (encodeClaimsAcc p.vrf nv s.claim_content_by_label ([], [])).2 l).isSome := by
    intro nv l hl
    obtain ⟨c, hc⟩ := lookupAssoc_mem_keys (hpre l hl)
    rw [encodeClaimsAcc_idx_present p.vrf nv s.claim_content_by_label ([], []) l c hnodup hc]
    rfl
  have hcapnone : ∀ nv qn : Bytes, ∀ l2, l2 ∉ pre →
      lookupAssoc (addCaps p.dh nv (encodeClaimsAcc p.vrf nv s.claim_content_by_label ([], [])).2
        s.caps_by_reader_pk (encodeClaimsAcc p.vrf nv s.claim_content_by_label ([], [])).1).1
        (HKey.capLookup (dh p.dh reader.dh) qn l2) = none := by
    intro nv qn l2 hl2
    by_cases hq : qn = nv
    · subst hq
      rw [hdecomp]
      refine addCaps_break_no_cap p.dh qn _ capsA capsB reader.dh pre post ghost _
        (hidxGhost qn) (hpreSome qn) hreaderA hreaderB l2 hl2 ?_
      exact encodeClaimsAcc_no_capKey p.vrf qn s.claim_content_by_label ([], []) _ qn l2 rfl
    · refine (addCaps_eq p.dh nv _ s.caps_by_reader_pk _ _ ?_).trans
        (encodeClaimsAcc_no_capKey p.vrf nv s.claim_content_by_label ([], []) _ qn l2 rfl)
      intro ev hev l' hl'
      left
      intro hk
      simp only [HKey.capLookup.injEq] at hk
      exact hq hk.2.1
  refine ⟨?_, ?_, ?_⟩
  · simp only [State.commit, State.commitWith]
    rw [hdecomp]
    exact addCaps_warn_of_break p.dh _ _ capsA capsB reader.dh pre post ghost _
      (hidxGhost _) (hpreSome _)
  · intro l2 hl2
    simp only [State.commit, State.commitWith]
    exact hcapnone _ n l2 hl2
  · simp only [State.commit]
    generalize commitNonce (some n) e = nv
    have hghostnotpre : ghost ∉ pre := fun hg => hghost (hpre ghost hg)
    have hgnone := hcapnone nv nv ghost hghostnotpre
    by_cases hc : s.claim_content_by_label = []
    · simp [State.commitWith, hc, encodeClaimsAcc, addCaps_nil_idx, sign_block, Payload.build,
        Payload.from_dict, treeRootHash, viewRead, View.init, View.getItem, View.lookupClaim,
        View.lookupCapability, View.params, View.payloadOf, LocalParams.public_export,
        encode_claim, compute_claim_key, get_capability_lookup_key, hother]
    · have hne := addCaps_encode_ne_nil p.dh p.vrf nv s.claim_content_by_label
        s.caps_by_reader_pk hnodup hc
      simp [State.commitWith, sign_block, Payload.build, Payload.from_dict, treeRootHash,
        viewRead, View.init, View.getItem, View.lookupClaim, View.lookupCapability,
        View.params, View.payloadOf, LocalParams.public_export, get_capability_lookup_key,
        hne, hgnone, hother, hc, dh_comm reader.dh p.dh]

/-- Witness for the amended C6: with claim `[10]` staged and a grant list
`[[99], [10]]` where `[99]` is unstaged, commit warns about `[99]` and the
reader's lookup of `[99]` is denied. -/
theorem claim6_witness :
    (exStateGhostPlus.caps_by_reader_pk
        = [] ++ (exReader.dh, [] ++ [99] :: [[10]]) :: [] ∧
      ([99] : Bytes) ∉ exStateGhostPlus.claim_content_by_label.map Prod.fst ∧
      exReader.vrf ≠ exOwner.vrf) ∧
    (([99] : Bytes) ∈ (State.commit exOwner exStateGhostPlus exChain0 (some [7]) [] 5).warnings ∧
      (∀ l2, l2 ∉ ([] : List Bytes) →
        lookupAssoc (State.commit exOwner exStateGhostPlus exChain0 (some [7]) [] 5).state.enc_items_map
          (HKey.capLookup (dh exOwner.dh exReader.dh) [7] l2) = none) ∧
      viewRead exReader (State.commit exOwner exStateGhostPlus exChain0 (some [7]) [] 5).chain [99]
        = Except.error (if exStateGhostPlus.claim_content_by_label = [] then ViewErr.noClaimMap
                        else ViewErr.accessDenied)) :=
  ⟨⟨by decide, by decide, by decide⟩,
   claim6_grant_without_claim_amended exOwner exReader exStateGhostPlus exChain0 [7] [] 5 [99]
     [] [] [] [[10]] (by decide) (by decide) (by decide) (by decide) (by decide)
     (by decide) (by decide)⟩

/-- C7 counterexample: grant-then-revoke before a commit with nothing staged
leaves the reader's lookup failing with the no-claim-map error, not with
AccessDenied as the claim states. -/
theorem claim7_counterexample :
    viewRead exReader (State.commit exOwner exStateRevokedEmpty exChain0 (some [7]) [] 5).chain [10]
      = Except.error ViewErr.noClaimMap ∧
    viewRead exReader (State.commit exOwner exStateRevokedEmpty exChain0 (some [7]) [] 5).chain [10]
      ≠ Except.error ViewErr.accessDenied := by
  refine ⟨by decide, by decide⟩

/-- C7 (amended): if the owner grants a reader a label set containing `label`
and then revokes a set containing `label`, all before commit, the committed
tree contains no capability entry for that (reader, label) pair, and a view
built with the reader's `LocalParams` fails on that label — with AccessDenied
when at least one claim was committed, and with the no-claim-map error when
the committed block has no tree. -/
theorem claim7_revoke_amended (p reader : LocalParams) (s : State) (ch : Chain)
    (n e : Bytes) (t : Nat) (label : Bytes) (grantL revokeL : List Bytes)
    (hinR : label ∈ revokeL)
    (hfresh : reader.dh ∉ s.caps_by_reader_pk.map Prod.fst)
    (hnodup : (s.claim_content_by_label.map Prod.fst).Nodup)
    (hother : reader.vrf ≠ p.vrf) :
    lookupAssoc
      (State.commit p ((s.grant_access reader.dh grantL).revoke_access reader.dh revokeL)
        ch (some n) e t).state.enc_items_map
      (HKey.capLookup (dh p.dh reader.dh) n label) = none ∧
    viewRead reader
      (State.commit p ((s.grant_access reader.dh grantL).revoke_access reader.dh revokeL)
        ch (some n) e t).chain label
      = Except.error (if s.claim_content_by_label = [] then ViewErr.noClaimMap
                      else ViewErr.accessDenied) := by
  have hs1 : s.grant_access reader.dh grantL
      = { s with caps_by_reader_pk :=
            s.caps_by_reader_pk ++ [(reader.dh, unionLabels [] grantL)] } := by
    simp [State.grant_access, hfresh]
  have hmem : reader.dh ∈ ((s.caps_by_reader_pk
      ++ [(reader.dh, unionLabels [] grantL)]).map Prod.fst) := by simp
  have hA : (s.caps_by_reader_pk.map fun ev =>
        if ev.1 = reader.dh then (ev.1, ev.2.filter fun l => l ∉ revokeL) else ev)
      = s.caps_by_reader_pk := by
    refine listMapIdOn _ _ ?_
    intro ev hev
    have hne2 : ¬ ev.1 = reader.dh := fun hh =>
      hfresh (hh ▸ List.mem_map_of_mem Prod.fst hev)
    simp [hne2]
  have hs2 : (s.grant_access reader.dh grantL).revoke_access reader.dh revokeL
      = { s with caps_by_reader_pk :=
            s.caps_by_reader_pk
              ++ [(reader.dh, (unionLabels [] grantL).filter fun l => l ∉ revokeL)] } := by
    rw [hs1]
    simp only [decide_not] at hA
    simp [State.revoke_access, hA]
  rw [hs2]
  have hnotin : label ∉ (unionLabels [] grantL).filter fun l => l ∉ revokeL := by
    intro hmemf
    have h2 := (List.mem_filter.mp hmemf).2
    simp at h2
    exact h2 hinR
  have hcapnone : ∀ nv qn : Bytes, lookupAssoc
      (addCaps p.dh nv (encodeClaimsAcc p.vrf nv s.claim_content_by_label ([], [])).2
        (s.caps_by_reader_pk ++ [(reader.dh, (unionLabels [] grantL).filter fun l => l ∉ revokeL)])
        (encodeClaimsAcc p.vrf nv s.claim_content_by_label ([], [])).1).1
      (HKey.capLookup (dh p.dh reader.dh) qn label) = none := by
    intro nv qn
    by_cases hq : qn = nv
    · subst hq
      refine addCaps_no_cap p.dh qn _ _ _ reader.dh label ?_ ?_
      · intro ev hev hevr hlab
        rcases List.mem_append.mp hev with hev | hev
        · exact absurd (hevr ▸ List.mem_map_of_mem Prod.fst hev) hfresh
        · simp only [List.mem_singleton] at hev
          subst hev
          exact absurd hlab hnotin
      · exact encodeClaimsAcc_no_capKey p.vrf qn s.claim_content_by_label ([], []) _ qn label rfl
    · refine (addCaps_eq p.dh nv _ _ _ _ ?_).trans
        (encodeClaimsAcc_no_capKey p.vrf nv s.claim_content_by_label ([], []) _ qn label rfl)
      intro ev hev l' hl'
      left
      intro hk
      simp only [HKey.capLookup.injEq] at hk
      exact hq hk.2.1
  constructor
  · simp only [State.commit, State.commitWith]
    exact hcapnone _ n
  · simp only [State.commit]
    generalize commitNonce (some n) e = nv
    have hlabelnone := hcapnone nv nv
    by_cases hc : s.claim_content_by_label = []
    · simp [State.commitWith, hc, encodeClaimsAcc, addCaps_nil_idx, sign_block, Payload.build,
        Payload.from_dict, treeRootHash, viewRead, View.init, View.getItem, View.lookupClaim,
        View.lookupCapability, View.params, View.payloadOf, LocalParams.public_export,
        encode_claim, compute_claim_key, get_capability_lookup_key, hother]
    · have hne := addCaps_encode_ne_nil p.dh p.vrf nv s.claim_content_by_label
        (s.caps_by_reader_pk ++ [(reader.dh, (unionLabels [] grantL).filter fun l => l ∉ revokeL)])
        hnodup hc
      simp only [decide_not] at hlabelnone hne
      simp [State.commitWith, sign_block, Payload.build, Payload.from_dict, treeRootHash,
        viewRead, View.init, View.getItem, View.lookupClaim, View.lookupCapability,
        View.params, View.payloadOf, LocalParams.public_export, get_capability_lookup_key,
        hne, hlabelnone, hother, hc, dh_comm reader.dh p.dh]

/-- Witness for the amended C7: with claim `[10]` staged, granting then
revoking `[10]` for the reader leaves the reader's lookup of `[10]` denied. -/
theorem claim7_witness :
    (([10] : Bytes) ∈ ([[10]] : List Bytes) ∧
      exReader.dh ∉ exStateOne.caps_by_reader_pk.map Prod.fst ∧
      exReader.vrf ≠ exOwner.vrf) ∧
    (lookupAssoc
        (State.commit exOwner
          ((exStateOne.grant_access exReader.dh [[10]]).revoke_access exReader.dh [[10]])
          exChain0 (some [7]) [] 5).state.enc_items_map
        (HKey.capLookup (dh exOwner.dh exReader.dh) [7] [10]) = none ∧
      viewRead exReader
        (State.commit exOwner
          ((exStateOne.grant_access exReader.dh [[10]]).revoke_access exReader.dh [[10]])
          exChain0 (some [7]) [] 5).chain [10]
        = Except.error (if exStateOne.claim_content_by_label = [] then ViewErr.noClaimMap
                        else ViewErr.accessDenied)) :=
  ⟨⟨by decide, by decide, by decide⟩,
   claim7_revoke_amended exOwner exReader exStateOne exChain0 [7] [] 5 [10] [[10]] [[10]]
     (by decide) (by decide) (by decide) (by decide)⟩

/-- C8: for every reader and every label that was not among the claims
committed by the last commit (no `vrf_val` recorded for it),
`State.compute_evidence_keys` returns the empty set rather than failing or
returning partial evidence. -/
theorem claim8_unknown_label_empty (p : LocalParams) (s : State) (ch : Chain)
    (nonceOpt : Option Bytes) (e : Bytes) (t : Nat) (reader_dh_pk : Nat) (label : Bytes)
    (h : label ∉ s.claim_content_by_label.map Prod.fst) :
    State.compute_evidence_keys p (State.commit p s ch nonceOpt e t).state reader_dh_pk label
      = some [] := by
  have hidx : lookupAssoc
      (encodeClaimsAcc p.vrf (commitNonce nonceOpt e) s.claim_content_by_label ([], [])).2 label
      = none := by
    rw [encodeClaimsAcc_idx_eq _ _ _ _ _ h]
    rfl
  simp [State.commit, State.commitWith, State.compute_evidence_keys, hidx]

/-- Witness for C8: the unknown label `[99]` yields the empty evidence set on
the committed one-claim state. -/
theorem claim8_witness :
    ([99] : Bytes) ∉ exStateOne.claim_content_by_label.map Prod.fst ∧
    State.compute_evidence_keys exOwner
      (State.commit exOwner exStateOne exChain0 (some [7]) [] 5).state exReader.dh [99]
      = some [] :=
  ⟨by decide,
   claim8_unknown_label_empty exOwner exStateOne exChain0 (some [7]) [] 5 exReader.dh [99]
     (by decide)⟩

/-- C9: for every chain head produced by `State.commit`, the signature stored
in the block's auxiliary slot verifies against the `sig_pk` declared in the
block's own metadata over the block's content hash computed with the
signature slot cleared; `View.validate` on a freshly committed, untampered
chain succeeds for any viewer. -/
theorem claim9_signature_valid (p viewer : LocalParams) (s : State) (ch : Chain)
    (nonceOpt : Option Bytes) (e : Bytes) (t : Nat) :
    viewValidate viewer (State.commit p s ch nonceOpt e t).chain = Except.ok () := by
  by_cases hm : (addCaps p.dh (commitNonce nonceOpt e)
      (encodeClaimsAcc p.vrf (commitNonce nonceOpt e) s.claim_content_by_label ([], [])).2
      s.caps_by_reader_pk
      (encodeClaimsAcc p.vrf (commitNonce nonceOpt e) s.claim_content_by_label ([], [])).1).1 = [] <;>
  simp [viewValidate, View.init, View.validate, View.params, View.payloadOf, State.commit,
    State.commitWith, sign_block, Payload.build, Payload.from_dict, treeRootHash, hm,
    verify_signature, sign, Block.hash, LocalParams.public_export]

/-- C10: `State.commit` leaves the pending-claims map, the per-reader grant
sets and the identity info unchanged, writing only the cached commit
artifacts; consequently a second commit of the resulting state behaves
exactly like a second commit of the original state (re-publishing every
staged claim and grant), and `State.clear` empties the pending buffers. -/
theorem claim10_frame (p : LocalParams) (s : State) (ch : Chain)
    (nonceOpt : Option Bytes) (e : Bytes) (t : Nat)
    (ch2 : Chain) (n2 : Option Bytes) (e2 : Bytes) (t2 : Nat) :
    (State.commit p s ch nonceOpt e t).state.claim_content_by_label = s.claim_content_by_label ∧
    (State.commit p s ch nonceOpt e t).state.caps_by_reader_pk = s.caps_by_reader_pk ∧
    (State.commit p s ch nonceOpt e t).state.identity_info = s.identity_info ∧
    State.commit p (State.commit p s ch nonceOpt e t).state ch2 n2 e2 t2
      = State.commit p s ch2 n2 e2 t2 ∧
    ((State.commit p s ch nonceOpt e t).state.clear).claim_content_by_label = [] ∧
    ((State.commit p s ch nonceOpt e t).state.clear).caps_by_reader_pk = [] :=
  ⟨rfl, rfl, rfl, rfl, rfl, rfl⟩
